import Mathlib

/-!
# Verification of the chgk-google-sheets core

A shallow embedding of the quiz-game tool found in `app.go`, `config.go` and
`store.go`: the layout/addressing arithmetic (question batching, answer-grid
cell ranges, round lookup), the bolt-backed persistence layer (bucket model,
registry save/load, round-result save/load) and the totals aggregation.

Modelling conventions:
* Go `int` values become `Int`; Go's truncated division/remainder are `goDiv`
  and `goMod` below.
* A1-notation range strings are kept as their numeric pieces (column letters
  as their character codes, `65 = 'A'`) in a `SheetRange`; the `fmt.Sprintf`
  rendering is elided.
* bbolt buckets become association lists of key/value pairs; a bucket that
  does not exist is `none`.  Marshalled JSON values are modelled by the
  `StoredVal` inductive, one constructor per shape of value the program ever
  writes, plus `corrupt` for undecodable bytes.
* Go maps become association lists (`List (String × _)`) with pairwise
  distinct keys where a theorem needs that.
-/

namespace Chgk

/-- Go's truncated integer division (`/` on Go ints rounds toward zero),
specialised to a `Nat` divisor as the program only divides by 12. -/
def goDiv (a : Int) (b : Nat) : Int :=
  if 0 ≤ a then ((a.toNat / b : Nat) : Int) else -(((-a).toNat / b : Nat) : Int)

/-- Go's remainder operator (`%` on Go ints, sign follows the dividend). -/
def goMod (a : Int) (b : Nat) : Int :=
  a - goDiv a b * b

/-- `Config` from `config.go` (the three CLI-only fields tagged `json:"-"`
play no role in the claims and are omitted). -/
structure Config where
  GameName : String
  NumberOfQuestions : Int
  HasWarmUpQuestion : Bool
  Teams : List String
  deriving DecidableEq, Repr

/-- Error kinds: the Go code reports errors as formatted strings; each
distinct message produced by the embedded code becomes one constructor,
with the values interpolated into the message as payload. -/
inductive Err where
  /-- "bucket %s does not exist" (`errorInexistantBucket`). -/
  | bucketMissing (bucket : String)
  /-- "round %d results are not found". -/
  | roundNotFound (round : Int)
  /-- a `json.Unmarshal` failure. -/
  | decodeError
  /-- "team %s is unknown". -/
  | unknownTeam (team : String)
  /-- "group length must be inferior to 25". -/
  | groupTooLarge
  /-- "round %d is out of range [0; %d]". -/
  | roundOutOfRange (round : Int)
  /-- "round %d is invalid as the game does not have a warm-up question". -/
  | roundNoWarmUp (round : Int)
  /-- "game name cannot be empty". -/
  | emptyGameName
  /-- `os.Open` failure in `ParseJSONConfig`. -/
  | openError
  deriving DecidableEq, Repr

/-- The numeric content of an A1-notation range string
`"%c%d:%c%d" startColumn startRow endColumn endRow`; columns are kept as
character codes (`65 = 'A'`, `66 = 'B'`, `90 = 'Z'`). -/
structure SheetRange where
  startColumn : Int
  startRow : Int
  endColumn : Int
  endRow : Int
  deriving DecidableEq, Repr

/-- `sheets.GridRange` as used by `getRoundRange` (0-based, end-exclusive
indices, per the Google Sheets API). -/
structure GridRange where
  StartRowIndex : Int
  EndRowIndex : Int
  StartColumnIndex : Int
  EndColumnIndex : Int
  deriving DecidableEq, Repr

/-- `getLinkRange` from `app.go`. -/
def getLinkRange (cfg : Config) (offset length : Int) : Except Err SheetRange :=
  if length > 24 then .error .groupTooLarge
  else
    let startRow := offset * ((cfg.Teams.length : Int) + 2) + 2
    let endRow := startRow + (cfg.Teams.length : Int)
    let startColumn : Int := 66
    let endColumn := startColumn + length
    .ok ⟨startColumn, startRow, endColumn, endRow⟩

/-- `getTeamRange` from `app.go`. -/
def getTeamRange (cfg : Config) (offset length : Int) : Except Err SheetRange :=
  if length > 25 then .error .groupTooLarge
  else
    let startRow := offset * 3 + 1
    let endRow := startRow + 1
    let startColumn : Int := 65
    let endColumn := startColumn + length
    .ok ⟨startColumn, startRow, endColumn, endRow⟩

/-- `getManagerRange` from `app.go`. -/
def getManagerRange (cfg : Config) (offset length : Int) : Except Err SheetRange :=
  if length > 25 then .error .groupTooLarge
  else
    let startRow := offset * ((cfg.Teams.length : Int) + 2) + 1
    let endRow := startRow + (cfg.Teams.length : Int) + 1
    let startColumn : Int := 65
    let endColumn := startColumn + length
    .ok ⟨startColumn, startRow, endColumn, endRow⟩

/-- `getRoundRange` from `app.go`. -/
def getRoundRange (cfg : Config) (round : Int) : Except Err GridRange :=
  if round < 0 ∨ round ≥ cfg.NumberOfQuestions then .error (.roundOutOfRange round)
  else if round = 0 then
    if ¬cfg.HasWarmUpQuestion then .error (.roundNoWarmUp round)
    else .ok ⟨1, (cfg.Teams.length : Int) + 1, 1, 2⟩
  else
    let groupWidth := 1 + (cfg.Teams.length : Int)
    let gapWidth : Int := 1
    let firstGroupRow := if cfg.HasWarmUpQuestion then groupWidth + gapWidth else 0
    let groupIndex := goDiv round 12
    let groupRow := firstGroupRow + groupIndex * (groupWidth + gapWidth)
    let firstResultRow := groupRow + 1
    let lastResultRow := groupRow + (cfg.Teams.length : Int)
    let questionMod0 := goMod round 12
    let questionMod := if questionMod0 = 0 then 12 else questionMod0
    .ok ⟨firstResultRow, lastResultRow + 1, questionMod, questionMod + 1⟩

/-- The body of `createGroups`'s `for i := 0; i < quot; i++` loop: runs the
callback `k` times with the fixed length 12, advancing `currQuestionIndex`
by 12 after each call and threading the accumulated group list. -/
def goFor12 {α} (f : Int → Int → List α → Except Err (List α)) :
    Nat → Int → List α → Except Err (List α)
  | 0, _, gs => .ok gs
  | k + 1, curr, gs =>
    match f 12 curr gs with
    | .error e => .error e
    | .ok gs' => goFor12 f k (curr + 12) gs'

/-- `createGroups` from `app.go`: `currQuestionIndex` starts at `-1`, the
warm-up group (length 1) is emitted first when present, the index is then
incremented once unconditionally, `NumberOfQuestions / 12` full groups of 12
follow, and a final group holds `NumberOfQuestions % 12` when nonzero.  The
loop runs `max(quot, 0)` times, hence `.toNat`; after it the question index
is `0 + 12 * (number of iterations)`. -/
def createGroups {α} (cfg : Config)
    (f : Int → Int → List α → Except Err (List α)) : Except Err (List α) :=
  match (if cfg.HasWarmUpQuestion then f 1 (-1) [] else .ok []) with
  | .error e => .error e
  | .ok gs =>
    let quotIters := (goDiv cfg.NumberOfQuestions 12).toNat
    let rem := goMod cfg.NumberOfQuestions 12
    match goFor12 f quotIters 0 gs with
    | .error e => .error e
    | .ok gs2 =>
      if rem ≠ 0 then f rem (0 + 12 * (quotIters : Int)) gs2 else .ok gs2

/-- `createGroups` instantiated with a callback that records each emitted
group as a `(length, currQuestionIndex)` pair, observing exactly the calls
the Go code makes to its `createGroupFn`. -/
def batchEmits (cfg : Config) : Except Err (List (Int × Int)) :=
  createGroups cfg (fun len curr gs => .ok (gs ++ [(len, curr)]))

/-- Expected emissions after the warm-up group: `k` full groups of 12
starting at question index `curr`, then a final group of `rem` when
`rem ≠ 0`. -/
def specEmitGroups (k : Nat) (curr : Int) (rem : Nat) : List (Int × Int) :=
  match k with
  | 0 => if rem ≠ 0 then [((rem : Int), curr)] else []
  | k + 1 => ((12 : Int), curr) :: specEmitGroups k (curr + 12) rem

/-- The full expected batching for question count `q` (taken non-negative)
and a warm-up flag. -/
def specBatches (q : Nat) (warmup : Bool) : List (Int × Int) :=
  (if warmup then [((1 : Int), (-1 : Int))] else []) ++ specEmitGroups (q / 12) 0 (q % 12)

/-! ## The bolt-backed store (`store.go`) -/

def bucketGameConfiguration : String := "game-configuration"
def bucketTeamsSpreadsheets : String := "teams-spreadsheets"
def bucketGameResults : String := "game-results"
def bucketGameConfiguration_managerSpreadsheet : String := "manager-spreadsheet"

/-- `ResponseStatus` from `store.go`. -/
inductive ResponseStatus where
  | OK
  | KO
  | InQuestion
  | NotChecked
  deriving DecidableEq, Repr

/-- `roundResponse` from `store.go`. -/
structure roundResponse where
  Response : String
  Status : ResponseStatus
  deriving DecidableEq, Repr

/-- `roundResults` from `store.go`; the Go `map[string]*roundResponse` is an
association list here. -/
structure roundResults where
  Round : Int
  Results : List (String × roundResponse)
  deriving DecidableEq, Repr

/-- `storeSpreadsheet` from `store.go`. -/
structure storeSpreadsheet where
  ID : String
  URL : String
  deriving DecidableEq, Repr

/-- `storeGameSpreadsheets` from `store.go`; `manager` is the Go
`*storeSpreadsheet` (nil = `none`), `teams` the Go map as an association
list. -/
structure storeGameSpreadsheets where
  manager : Option storeSpreadsheet
  teams : List (String × storeSpreadsheet)
  deriving DecidableEq, Repr

/-- The marshalled `[]byte` values the program stores in buckets, one
constructor per JSON shape it ever writes: `json.Marshal` of a nil
`*storeSpreadsheet` ("null"), of a `storeSpreadsheet` and of a
`roundResults`.  `corrupt` stands for any other byte string (which the
matching `json.Unmarshal` call fails on). -/
inductive StoredVal where
  | jnull
  | sheet (id url : String)
  | round (r : roundResults)
  | corrupt
  deriving DecidableEq, Repr

/-- A bbolt bucket: binary key → value pairs, modelled as an association
list with distinct keys maintained by `putA`. -/
abbrev Bucket := List (String × StoredVal)

/-- Association-list lookup (the Go map access / `bucket.Get`; `Get` of an
absent key returns nil, i.e. `none`). -/
def lookupA {α} : List (String × α) → String → Option α
  | [], _ => none
  | (k, v) :: rest, key => if k = key then some v else lookupA rest key

/-- `bucket.Put`: overwrite the entry for `key` or add one. -/
def putA {α} : List (String × α) → String → α → List (String × α)
  | [], key, v => [(key, v)]
  | (k, w) :: rest, key, v =>
    if k = key then (key, v) :: rest else (k, w) :: putA rest key v

/-- The database file: the three well-known buckets, each possibly not yet
created. -/
structure DB where
  config : Option Bucket
  teams : Option Bucket
  results : Option Bucket
  deriving DecidableEq, Repr

/-- A freshly created (never written) database file. -/
def emptyDB : DB := ⟨none, none, none⟩

/-- `createBuckets` from `store.go`: `CreateBucketIfNotExists` for each of
the three well-known buckets. -/
def createBuckets (db : DB) : DB :=
  ⟨some (db.config.getD []), some (db.teams.getD []), some (db.results.getD [])⟩

/-- `boltManager.update`: open the file, create the buckets, run `fn` in a
writable transaction.  `db.Update` commits the transaction iff `fn`
returns nil, otherwise it rolls back — modelled by returning the original
`db` together with the error. -/
def update (db : DB) (fn : DB → Except Err DB) : DB × Option Err :=
  match fn (createBuckets db) with
  | .ok db' => (db', none)
  | .error e => (db, some e)

/-- `boltManager.read`: run `fn` against a read-only snapshot; never
creates buckets. -/
def read {α} (db : DB) (fn : DB → Except Err α) : Except Err α :=
  fn db

/-- `json.Marshal req.manager`: a nil pointer marshals to "null". -/
def encodeManager : Option storeSpreadsheet → StoredVal
  | none => .jnull
  | some s => .sheet s.ID s.URL

/-- `json.Unmarshal` into `*storeSpreadsheet` (`&spreadsheets.manager`):
"null" yields a nil pointer; bytes not produced by the corresponding
`json.Marshal` are treated as undecodable (no such bytes are ever put in
this slot by the program). -/
def decodeManager : StoredVal → Option (Option storeSpreadsheet)
  | .jnull => some none
  | .sheet id url => some (some ⟨id, url⟩)
  | _ => none

/-- `json.Unmarshal` into a `storeSpreadsheet` struct (per-team entries). -/
def decodeSheetEntry : StoredVal → Option storeSpreadsheet
  | .sheet id url => some ⟨id, url⟩
  | _ => none

/-- `json.Unmarshal` into a `roundResults` struct. -/
def decodeRound : StoredVal → Option roundResults
  | .round r => some r
  | _ => none

/-- `getBucket` from `store.go`, specialised to one optional bucket. -/
def getBucket (b : Option Bucket) (buckName : String) : Except Err Bucket :=
  match b with
  | none => .error (.bucketMissing buckName)
  | some buck => .ok buck

/-- The transaction body of `saveSpreadsheets`: put the marshalled manager
under the fixed key, then — only when the team map is non-empty — put each
team's marshalled reference under the team's name. -/
def saveSpreadsheetsTx (req : storeGameSpreadsheets) (tx : DB) : Except Err DB :=
  match getBucket tx.config bucketGameConfiguration with
  | .error e => .error e
  | .ok buckGameConfig =>
    let buckGameConfig :=
      putA buckGameConfig bucketGameConfiguration_managerSpreadsheet (encodeManager req.manager)
    let tx := { tx with config := some buckGameConfig }
    if req.teams.isEmpty then .ok tx
    else
      match getBucket tx.teams bucketTeamsSpreadsheets with
      | .error e => .error e
      | .ok buckTeams =>
        .ok { tx with
              teams := some (req.teams.foldl (fun b p => putA b p.1 (.sheet p.2.ID p.2.URL)) buckTeams) }

/-- `boltManager.saveSpreadsheets` from `store.go`. -/
def saveSpreadsheets (req : storeGameSpreadsheets) (db : DB) : DB × Option Err :=
  update db (saveSpreadsheetsTx req)

/-- Decode every entry of the teams bucket (the `ForEach` body of
`getSpreadsheets`). -/
def decodeTeams : Bucket → Except Err (List (String × storeSpreadsheet))
  | [] => .ok []
  | (name, v) :: rest =>
    match decodeSheetEntry v with
    | none => .error .decodeError
    | some s =>
      match decodeTeams rest with
      | .error e => .error e
      | .ok ts => .ok ((name, s) :: ts)

/-- `boltManager.getSpreadsheets` from `store.go`: read the manager entry
(`Get` of an absent key returns nil bytes, which `json.Unmarshal` fails on),
then read the whole teams bucket, a missing teams bucket meaning an empty
team map. -/
def getSpreadsheets (db : DB) : Except Err storeGameSpreadsheets :=
  read db fun tx =>
    match getBucket tx.config bucketGameConfiguration with
    | .error e => .error e
    | .ok buckGameConfig =>
      match lookupA buckGameConfig bucketGameConfiguration_managerSpreadsheet with
      | none => .error .decodeError
      | some managerBytes =>
        match decodeManager managerBytes with
        | none => .error .decodeError
        | some manager =>
          match tx.teams with
          | none => .ok { manager := manager, teams := [] }
          | some buckTeams =>
            match decodeTeams buckTeams with
            | .error e => .error e
            | .ok ts => .ok { manager := manager, teams := ts }

/-- The manager component of `getSpreadsheets`'s result. -/
def getSpreadsheetsManager (db : DB) : Except Err (Option storeSpreadsheet) :=
  match getSpreadsheets db with
  | .error e => .error e
  | .ok r => .ok r.manager

/-- The entry `getSpreadsheets`'s result holds for team `n`. -/
def getSpreadsheetsTeam (db : DB) (n : String) : Except Err (Option storeSpreadsheet) :=
  match getSpreadsheets db with
  | .error e => .error e
  | .ok r => .ok (lookupA r.teams n)

/-- `boltManager.saveRoundResults` from `store.go`: marshal the whole record
and put it under `strconv.Itoa(req.Round)`. -/
def saveRoundResults (req : roundResults) (db : DB) : DB × Option Err :=
  update db fun tx =>
    match getBucket tx.results bucketGameResults with
    | .error e => .error e
    | .ok buckGameResults =>
      .ok { tx with results := some (putA buckGameResults (toString req.Round) (.round req)) }

/-- `boltManager.getRoundResults` from `store.go`: a missing results bucket
is swallowed (the zero-value record is returned); `Get` of an absent key
returns nil bytes (`len == 0`), reported as round-not-found; stored bytes
that do not unmarshal are a decode error. -/
def getRoundResults (db : DB) (round : Int) : Except Err roundResults :=
  read db fun tx =>
    match tx.results with
    | none => .ok { Round := 0, Results := [] }
    | some buckGameResults =>
      match lookupA buckGameResults (toString round) with
      | none => .error (.roundNotFound round)
      | some results =>
        match decodeRound results with
        | none => .error .decodeError
        | some r => .ok r

/-! ## Configuration loading (`config.go`) -/

/-- The possible outcomes of `os.Open` + `json.NewDecoder(f).Decode` on the
configuration file, abstracting the file system and the JSON decoder. -/
inductive ConfigFile where
  | unreadable
  | undecodable
  | decoded (c : Config)
  deriving DecidableEq, Repr

/-- `ParseJSONConfig` from `config.go`: the only validation applied to a
decoded configuration is that the game name is non-empty. -/
def ParseJSONConfig : ConfigFile → Except Err Config
  | .unreadable => .error .openError
  | .undecodable => .error .decodeError
  | .decoded c => if c.GameName.length = 0 then .error .emptyGameName else .ok c

/-! ## The `total` command (`app.go`, `CmdGetTotal`) -/

/-- The `Int` values visited by `for i := lo; i < hi; i++`. -/
def intRange (lo hi : Int) : List Int :=
  (List.range (hi - lo).toNat).map fun k => lo + k

/-- The rounds `CmdGetTotal` iterates: from 1 when the game has a warm-up
question (else 0) up to `NumberOfQuestions - 1`. -/
def roundsOf (cfg : Config) : List Int :=
  intRange (if cfg.HasWarmUpQuestion then 1 else 0) cfg.NumberOfQuestions

/-- The initial totals map: zero for every configured team. -/
def initTotal (cfg : Config) : String → Option Nat :=
  fun t => if t ∈ cfg.Teams then some 0 else none

/-- The per-round body of `CmdGetTotal`: for each stored response, a team
absent from the totals map is unknown; an `OK` status increments the
team's count. -/
def processRound (total : String → Option Nat) :
    List (String × roundResponse) → Except Err (String → Option Nat)
  | [] => .ok total
  | (team, res) :: rest =>
    match total team with
    | none => .error (.unknownTeam team)
    | some c =>
      processRound
        (if res.Status = ResponseStatus.OK
         then fun t => if t = team then some (c + 1) else total t
         else total)
        rest

/-- The round loop of `CmdGetTotal`: a round-not-found error for the round
being queried is skipped (the Go code compares the error message with
`fmt.Sprintf("round %d results are not found", i)`); any other error
aborts. -/
def totalLoop (db : DB) : List Int → (String → Option Nat) → Except Err (String → Option Nat)
  | [], total => .ok total
  | i :: rest, total =>
    match getRoundResults db i with
    | .error e => if e = .roundNotFound i then totalLoop db rest total else .error e
    | .ok results =>
      match processRound total results.Results with
      | .error e => .error e
      | .ok total' => totalLoop db rest total'

/-- `CmdGetTotal` from `app.go` (the final printing loop elided): the totals
map after iterating every round. -/
def CmdGetTotal (cfg : Config) (db : DB) : Except Err (String → Option Nat) :=
  totalLoop db (roundsOf cfg) (initTotal cfg)

/-- `CmdGetTotal`'s result observed at one team name. -/
def cmdGetTotalAt (cfg : Config) (db : DB) (t : String) : Except Err (Option Nat) :=
  match CmdGetTotal cfg db with
  | .error e => .error e
  | .ok total => .ok (total t)

/-- Whether round `i` contributes one point to team `t`: the stored record
for `i` exists and holds an `OK` response for `t`. -/
def contributesOK (db : DB) (t : String) (i : Int) : Bool :=
  match getRoundResults db i with
  | .ok r =>
    match lookupA r.Results t with
    | some resp => resp.Status = ResponseStatus.OK
    | none => false
  | .error _ => false

/-- A round the aggregation can get past: either never fetched
(round-not-found) or a well-formed record naming only configured teams. -/
def goodRound (cfg : Config) (db : DB) (i : Int) : Prop :=
  getRoundResults db i = .error (.roundNotFound i) ∨
    ∃ r, getRoundResults db i = .ok r ∧ (r.Results.map Prod.fst).Nodup ∧
      ∀ p ∈ r.Results, p.1 ∈ cfg.Teams

/-! ## Spec-side vocabulary for the round-lookup claim -/

/-- The height of the warm-up block in the manager grid: a `1 + team_count`
row group plus one gap row, present only when the game has a warm-up
question. -/
def warmUpShift (cfg : Config) : Int :=
  if cfg.HasWarmUpQuestion then (cfg.Teams.length : Int) + 2 else 0

/-- Column selection within a group: the round's position modulo the batch
size 12, a zero remainder mapping to the last column (12). -/
def wrapCol (round : Int) : Int :=
  if goMod round 12 = 0 then 12 else goMod round 12

/-! ## Layout-engine theorems -/

/-- C1 (counterexample): the claim says that with a warm-up question and
`Q = 13`, round 13 maps to group 1, column index 1; the code instead
rejects round 13 as out of range, because the bound is
`round < NumberOfQuestions` and round 0 is the warm-up question. -/
theorem getRoundRange_cex :
    getRoundRange ⟨"g", 13, true, ["A", "B"]⟩ 13 = .error (.roundOutOfRange 13) := by
  rfl

/-- C1 (amended): `getRoundRange` rejects every round outside
`[0, NumberOfQuestions)` and rejects round 0 without a warm-up question;
with a warm-up, round 0 maps to the single column 1 block over all team
rows; every round `> 0` in range maps to group `round / 12` (truncated
division), its row block placed by the manager-grid vertical offset
formula `group * (team_count + 2)` shifted by the warm-up block height,
and to column `round % 12` with a zero remainder wrapping to 12.  With
warm-up and `Q = 13`, round 1 maps to group 0, column 1; round 13 is out
of range for `Q = 13` and maps to group 1, column 1 for `Q = 14`. -/
theorem getRoundRange_spec (cfg : Config) (round : Int) :
    (round < 0 ∨ cfg.NumberOfQuestions ≤ round →
      getRoundRange cfg round = .error (.roundOutOfRange round)) ∧
    (0 < cfg.NumberOfQuestions → cfg.HasWarmUpQuestion = false →
      getRoundRange cfg 0 = .error (.roundNoWarmUp 0)) ∧
    (0 < cfg.NumberOfQuestions → cfg.HasWarmUpQuestion = true →
      getRoundRange cfg 0 = .ok ⟨1, (cfg.Teams.length : Int) + 1, 1, 2⟩) ∧
    (0 < round → round < cfg.NumberOfQuestions →
      getRoundRange cfg round =
        .ok ⟨warmUpShift cfg + goDiv round 12 * ((cfg.Teams.length : Int) + 2) + 1,
             warmUpShift cfg + goDiv round 12 * ((cfg.Teams.length : Int) + 2) + 1 +
               (cfg.Teams.length : Int),
             wrapCol round, wrapCol round + 1⟩) ∧
    getRoundRange ⟨"g", 13, true, ["A", "B"]⟩ 1 = .ok ⟨5, 7, 1, 2⟩ ∧
    getRoundRange ⟨"g", 14, true, ["A", "B"]⟩ 13 = .ok ⟨9, 11, 1, 2⟩ := by
  refine ⟨?_, ?_, ?_, ?_, by rfl, by rfl⟩
  · intro h
    simp only [getRoundRange]
    rw [if_pos h]
  · intro hQ hw
    simp only [getRoundRange]
    rw [if_neg (by omega : ¬((0 : Int) < 0 ∨ (0 : Int) ≥ cfg.NumberOfQuestions))]
    simp [hw]
  · intro hQ hw
    simp only [getRoundRange]
    rw [if_neg (by omega : ¬((0 : Int) < 0 ∨ (0 : Int) ≥ cfg.NumberOfQuestions))]
    simp [hw]
  · intro h0 hQ
    have h1 : ¬(round < 0 ∨ round ≥ cfg.NumberOfQuestions) := by omega
    have h2 : ¬round = 0 := by omega
    rcases Bool.eq_false_or_eq_true cfg.HasWarmUpQuestion with hw | hw <;>
      simp only [getRoundRange, warmUpShift, wrapCol, hw, if_neg h1, if_neg h2,
        Bool.false_eq_true, if_false, if_true, Except.ok.injEq, GridRange.mk.injEq] <;>
      refine ⟨by ring, by ring, trivial, trivial⟩

/-- C1 witness: the out-of-range branch at a concrete input. -/
theorem getRoundRange_spec_witness :
    getRoundRange ⟨"g", 13, true, ["A", "B"]⟩ 20 = .error (.roundOutOfRange 20) :=
  (getRoundRange_spec ⟨"g", 13, true, ["A", "B"]⟩ 20).1 (Or.inr (by decide))

/-- Emissions of the full-group loop followed by the remainder step equal
`specEmitGroups`. -/
theorem specEmitGroups_eq (rem : Nat) :
    ∀ (k : Nat) (c : Int),
      ((List.range k).map fun j : Nat => ((12 : Int), c + 12 * (j : Int))) ++
        (if rem ≠ 0 then [((rem : Int), c + 12 * (k : Int))] else []) =
      specEmitGroups k c rem := by
  intro k
  induction k with
  | zero =>
    intro c
    by_cases h : rem = 0 <;> simp [specEmitGroups, h]
  | succ k ih =>
    intro c
    have harith : c + 12 * ((k + 1 : Nat) : Int) = c + 12 + 12 * (k : Int) := by
      push_cast
      ring
    rw [harith, List.range_succ_eq_map]
    simp only [List.map_cons, List.map_map]
    have hmap : (List.range k).map ((fun j : Nat => ((12 : Int), c + 12 * (j : Int))) ∘ Nat.succ)
        = (List.range k).map fun j : Nat => ((12 : Int), c + 12 + 12 * (j : Int)) := by
      apply List.map_congr_left
      intro j _
      simp only [Function.comp_apply, Prod.mk.injEq]
      refine ⟨trivial, ?_⟩
      push_cast
      ring
    rw [hmap, List.cons_append, ih (c + 12)]
    simp [specEmitGroups]

/-- The logging instantiation of the full-group loop. -/
theorem goFor12_log :
    ∀ (k : Nat) (c : Int) (gs : List (Int × Int)),
      goFor12 (fun len curr gs => .ok (gs ++ [(len, curr)])) k c gs =
        .ok (gs ++ (List.range k).map fun j : Nat => ((12 : Int), c + 12 * (j : Int))) := by
  intro k
  induction k with
  | zero => intro c gs; simp [goFor12]
  | succ k ih =>
    intro c gs
    rw [goFor12]
    dsimp only
    rw [ih (c + 12)]
    rw [List.range_succ_eq_map]
    simp only [List.map_cons, List.map_map, Except.ok.injEq]
    have hmap : (List.range k).map ((fun j : Nat => ((12 : Int), c + 12 * (j : Int))) ∘ Nat.succ)
        = (List.range k).map fun j : Nat => ((12 : Int), c + 12 + 12 * (j : Int)) := by
      apply List.map_congr_left
      intro j _
      simp only [Function.comp_apply, Prod.mk.injEq]
      refine ⟨trivial, ?_⟩
      push_cast
      ring
    rw [hmap]
    simp [List.append_assoc]

/-- Sum of the group lengths emitted after the warm-up group. -/
theorem specEmitGroups_sum (rem : Nat) :
    ∀ (k : Nat) (c : Int),
      ((specEmitGroups k c rem).map Prod.fst).sum = 12 * (k : Int) + (rem : Int) := by
  intro k
  induction k with
  | zero =>
    intro c
    by_cases h : rem = 0 <;> simp [specEmitGroups, h]
  | succ k ih =>
    intro c
    rw [specEmitGroups]
    simp only [List.map_cons, List.sum_cons, ih (c + 12)]
    push_cast
    ring

/-- Each emitted group's question index is the previous index advanced by
the previous group's length, and the first one starts at `c`. -/
theorem specEmitGroups_chain (rem : Nat) :
    ∀ (k : Nat) (c : Int),
      List.Chain' (fun a b : Int × Int => b.2 = a.2 + a.1) (specEmitGroups k c rem) ∧
        ∀ y ∈ (specEmitGroups k c rem).head?, y.2 = c := by
  intro k
  induction k with
  | zero =>
    intro c
    by_cases h : rem = 0 <;> simp [specEmitGroups, h]
  | succ k ih =>
    intro c
    rw [specEmitGroups]
    constructor
    · rw [List.chain'_cons']
      refine ⟨?_, (ih (c + 12)).1⟩
      intro y hy
      have := (ih (c + 12)).2 y hy
      simpa using this
    · intro y hy
      simp only [List.head?_cons, Option.mem_def, Option.some.injEq] at hy
      rw [← hy]

/-- C2 (counterexample): for `Q = 0` with a warm-up question, the emitted
group lengths sum to 1, not to `Q = 0` — the warm-up group of length 1 is
emitted in addition to the `Q` questions. -/
theorem createGroups_cex :
    batchEmits ⟨"g", 0, true, []⟩ = .ok [((1 : Int), (-1 : Int))] ∧
    (([((1 : Int), (-1 : Int))] : List (Int × Int)).map Prod.fst).sum ≠
      (⟨"g", 0, true, []⟩ : Config).NumberOfQuestions := by
  constructor
  · rfl
  · decide

/-- C2 (amended): for every question count `Q ≥ 0` and warm-up flag,
`createGroups` emits the warm-up group `(length 1, index -1)` first when
present, then `Q / 12` full groups of 12 and a final partial group of
`Q % 12` when nonzero; the emitted lengths sum to `Q` plus one for the
warm-up group when present; groups are numbered contiguously from 0 (their
positions in the emitted list); and the current question index starts at
`-1` and advances by each emitted group's length. -/
theorem createGroups_spec (cfg : Config) (hq : 0 ≤ cfg.NumberOfQuestions) :
    batchEmits cfg = .ok (specBatches cfg.NumberOfQuestions.toNat cfg.HasWarmUpQuestion) ∧
    ((specBatches cfg.NumberOfQuestions.toNat cfg.HasWarmUpQuestion).map Prod.fst).sum =
      cfg.NumberOfQuestions + (if cfg.HasWarmUpQuestion then 1 else 0) ∧
    (cfg.HasWarmUpQuestion = true →
      (specBatches cfg.NumberOfQuestions.toNat cfg.HasWarmUpQuestion).head? =
        some (1, -1)) ∧
    List.Chain' (fun a b : Int × Int => b.2 = a.2 + a.1)
      (specBatches cfg.NumberOfQuestions.toNat cfg.HasWarmUpQuestion) := by
  set q := cfg.NumberOfQuestions.toNat with hqdef
  have hQ : cfg.NumberOfQuestions = (q : Int) := (Int.toNat_of_nonneg hq).symm
  have hdiv : (goDiv cfg.NumberOfQuestions 12).toNat = q / 12 := by
    rw [hQ, goDiv, if_pos (Int.natCast_nonneg q), Int.toNat_natCast, Int.toNat_natCast]
  have hmod : goMod cfg.NumberOfQuestions 12 = ((q % 12 : Nat) : Int) := by
    rw [goMod, hQ, goDiv, if_pos (Int.natCast_nonneg q), Int.toNat_natCast]
    push_cast
    have := Nat.div_add_mod q 12
    omega
  refine ⟨?_, ?_, ?_, ?_⟩
  · simp only [batchEmits, createGroups, goFor12_log, hdiv, hmod]
    have hkey : ∀ gs0 : List (Int × Int),
        ((if ((q % 12 : Nat) : Int) ≠ 0 then
            .ok
              ((gs0 ++ (List.range (q / 12)).map fun j : Nat => ((12 : Int), 0 + 12 * (j : Int)))
                ++ [(((q % 12 : Nat) : Int), 0 + 12 * ((q / 12 : Nat) : Int))])
          else
            .ok
              (gs0 ++ (List.range (q / 12)).map fun j : Nat => ((12 : Int), 0 + 12 * (j : Int))))
          : Except Err (List (Int × Int)))
        = .ok (gs0 ++ specEmitGroups (q / 12) 0 (q % 12)) := by
      intro gs0
      rw [← specEmitGroups_eq (q % 12) (q / 12) 0]
      by_cases hrem : q % 12 = 0
      · have h1 : ¬(((q % 12 : Nat) : Int) ≠ 0) := by simp [hrem]
        have h2 : ¬((q % 12 : Nat) ≠ 0) := by simp [hrem]
        rw [if_neg h1, if_neg h2]
        simp
      · have h1 : ((q % 12 : Nat) : Int) ≠ 0 := by exact_mod_cast hrem
        rw [if_pos h1, if_pos hrem]
        simp [List.append_assoc]
    by_cases hw : cfg.HasWarmUpQuestion <;> simp only [hw, if_true, Bool.false_eq_true, if_false]
    · rw [specBatches]
      simpa using hkey [(1, -1)]
    · rw [specBatches]
      simpa using hkey []
  · have hs := specEmitGroups_sum (q % 12) (q / 12) 0
    have hdm := Nat.div_add_mod q 12
    by_cases hw : cfg.HasWarmUpQuestion <;>
      simp only [specBatches, hw, if_true, Bool.false_eq_true, if_false, List.singleton_append,
        List.nil_append, List.map_cons, List.sum_cons, hs, hQ] <;>
      omega
  · intro hw
    rw [specBatches, hw]
    simp
  · have hc := specEmitGroups_chain (q % 12) (q / 12) 0
    by_cases hw : cfg.HasWarmUpQuestion <;>
      simp only [specBatches, hw, if_true, Bool.false_eq_true, if_false, List.singleton_append,
        List.nil_append]
    · rw [List.chain'_cons']
      refine ⟨?_, hc.1⟩
      intro y hy
      have := hc.2 y hy
      simpa using this
    · exact hc.1

/-- C2 witness: the batching of a 13-question warm-up game. -/
theorem createGroups_spec_witness :
    batchEmits ⟨"g", 13, true, []⟩ =
      .ok (specBatches (13 : Int).toNat true) :=
  (createGroups_spec ⟨"g", 13, true, []⟩ (by decide)).1

/-- C4: within the length cap of 25, `getManagerRange` places group `g`'s
block at 0-based row offset `g * (team_count + 2)` and spans one header row
plus one row per team and `L` question columns from column `A` (65), spans
measured as `end - start`: the inclusive A1 rectangle additionally covers
the one trailing gap row and the team-name column `A` itself. -/
theorem getManagerRange_spec (cfg : Config) (g L : Int) (hL : L ≤ 25) :
    getManagerRange cfg g L =
      .ok ⟨65, g * ((cfg.Teams.length : Int) + 2) + 1, 65 + L,
           g * ((cfg.Teams.length : Int) + 2) + 1 + (cfg.Teams.length : Int) + 1⟩ ∧
    (g * ((cfg.Teams.length : Int) + 2) + 1 + (cfg.Teams.length : Int) + 1) -
        (g * ((cfg.Teams.length : Int) + 2) + 1) = 1 + (cfg.Teams.length : Int) ∧
    (65 + L) - 65 = L ∧
    (g * ((cfg.Teams.length : Int) + 2) + 1) - 1 = g * ((cfg.Teams.length : Int) + 2) := by
  refine ⟨?_, by ring, by ring, by ring⟩
  simp only [getManagerRange]
  rw [if_neg (by omega : ¬L > 25)]

/-- C4 witness: group 1, length 3, two teams. -/
theorem getManagerRange_spec_witness :
    getManagerRange ⟨"g", 13, false, ["A", "B"]⟩ 1 3 = .ok ⟨65, 5, 68, 8⟩ := by
  have h := (getManagerRange_spec ⟨"g", 13, false, ["A", "B"]⟩ 1 3 (by decide)).1
  simpa using h

/-- C6: `getManagerRange` and `getTeamRange` fail exactly when the group
length exceeds 25, `getLinkRange` exactly when it exceeds 24; within the
caps the end column code stays at or below `Z` (90); and for increasing
group indices the three families of ranges have pairwise disjoint
(inclusive) row spans. -/
theorem rangeCaps_spec (cfg : Config) (g g' L : Int) :
    (25 < L → getManagerRange cfg g L = .error .groupTooLarge) ∧
    (L ≤ 25 → getManagerRange cfg g L =
      .ok ⟨65, g * ((cfg.Teams.length : Int) + 2) + 1, 65 + L,
           g * ((cfg.Teams.length : Int) + 2) + 1 + (cfg.Teams.length : Int) + 1⟩ ∧
      65 + L ≤ 90) ∧
    (25 < L → getTeamRange cfg g L = .error .groupTooLarge) ∧
    (L ≤ 25 → getTeamRange cfg g L = .ok ⟨65, g * 3 + 1, 65 + L, g * 3 + 1 + 1⟩ ∧
      65 + L ≤ 90) ∧
    (24 < L → getLinkRange cfg g L = .error .groupTooLarge) ∧
    (L ≤ 24 → getLinkRange cfg g L =
      .ok ⟨66, g * ((cfg.Teams.length : Int) + 2) + 2, 66 + L,
           g * ((cfg.Teams.length : Int) + 2) + 2 + (cfg.Teams.length : Int)⟩ ∧
      66 + L ≤ 90) ∧
    (g < g' →
      g * ((cfg.Teams.length : Int) + 2) + 1 + (cfg.Teams.length : Int) + 1 <
          g' * ((cfg.Teams.length : Int) + 2) + 1 ∧
      g * 3 + 1 + 1 < g' * 3 + 1 ∧
      g * ((cfg.Teams.length : Int) + 2) + 2 + (cfg.Teams.length : Int) <
          g' * ((cfg.Teams.length : Int) + 2) + 2) := by
  refine ⟨?_, ?_, ?_, ?_, ?_, ?_, ?_⟩
  · intro h
    simp only [getManagerRange]
    rw [if_pos h]
  · intro h
    refine ⟨?_, by omega⟩
    simp only [getManagerRange]
    rw [if_neg (by omega : ¬L > 25)]
  · intro h
    simp only [getTeamRange]
    rw [if_pos h]
  · intro h
    refine ⟨?_, by omega⟩
    simp only [getTeamRange]
    rw [if_neg (by omega : ¬L > 25)]
  · intro h
    simp only [getLinkRange]
    rw [if_pos h]
  · intro h
    refine ⟨?_, by omega⟩
    simp only [getLinkRange]
    rw [if_neg (by omega : ¬L > 24)]
  · intro hgg
    have hT : (0 : Int) ≤ (cfg.Teams.length : Int) := Int.natCast_nonneg _
    have hmul : (g + 1) * ((cfg.Teams.length : Int) + 2) ≤ g' * ((cfg.Teams.length : Int) + 2) :=
      mul_le_mul_of_nonneg_right (by omega) (by omega)
    refine ⟨by nlinarith, by omega, by nlinarith⟩

/-- C6 witness: concrete rejections just above the caps and an accepted
length 24 link range. -/
theorem rangeCaps_spec_witness :
    getManagerRange ⟨"g", 13, false, ["A", "B"]⟩ 0 26 = .error .groupTooLarge ∧
    getLinkRange ⟨"g", 13, false, ["A", "B"]⟩ 0 25 = .error .groupTooLarge := by
  exact ⟨(rangeCaps_spec ⟨"g", 13, false, ["A", "B"]⟩ 0 1 26).1 (by decide),
    (rangeCaps_spec ⟨"g", 13, false, ["A", "B"]⟩ 0 1 25).2.2.2.2.1 (by decide)⟩

/-- C10: `ParseJSONConfig` fails exactly on an unopenable file, undecodable
JSON or an empty game name; any other decoded configuration is returned as
is — a negative question count, duplicate team names and an empty team
list are all accepted. -/
theorem ParseJSONConfig_spec :
    ParseJSONConfig .unreadable = .error .openError ∧
    ParseJSONConfig .undecodable = .error .decodeError ∧
    (∀ c : Config, c.GameName = "" → ParseJSONConfig (.decoded c) = .error .emptyGameName) ∧
    (∀ c : Config, c.GameName ≠ "" → ParseJSONConfig (.decoded c) = .ok c) ∧
    ParseJSONConfig (.decoded ⟨"g", -5, false, ["A", "A"]⟩) = .ok ⟨"g", -5, false, ["A", "A"]⟩ ∧
    ParseJSONConfig (.decoded ⟨"g", 3, true, []⟩) = .ok ⟨"g", 3, true, []⟩ := by
  refine ⟨rfl, rfl, ?_, ?_, by rfl, by rfl⟩
  · intro c hc
    simp [ParseJSONConfig, hc]
  · intro c hc
    have hlen : c.GameName.length ≠ 0 := by
      intro h0
      apply hc
      cases hname : c.GameName with
      | mk data =>
        have hd : data = [] := List.length_eq_zero.mp (by rw [hname] at h0; exact h0)
        simp [hd]
    simp [ParseJSONConfig, hlen]

/-- C10 witness: a configuration with a non-empty name parses to itself. -/
theorem ParseJSONConfig_spec_witness :
    ParseJSONConfig (.decoded ⟨"x", 0, false, []⟩) = .ok ⟨"x", 0, false, []⟩ :=
  ParseJSONConfig_spec.2.2.2.1 ⟨"x", 0, false, []⟩ (by decide)

/-! ## Association-list lemmas for the bucket model -/

/-- Lookup of an optional bucket: a missing bucket holds nothing. -/
def lookupOB (ob : Option Bucket) (k : String) : Option StoredVal :=
  match ob with
  | none => none
  | some b => lookupA b k

theorem lookupA_putA_self {α} (l : List (String × α)) (k : String) (v : α) :
    lookupA (putA l k v) k = some v := by
  induction l with
  | nil => simp [putA, lookupA]
  | cons p rest ih =>
    obtain ⟨k', v'⟩ := p
    by_cases h : k' = k
    · simp [putA, h, lookupA]
    · simp [putA, h, lookupA, ih]

theorem lookupA_putA_ne {α} (l : List (String × α)) (k k' : String) (v : α) (h : k ≠ k') :
    lookupA (putA l k v) k' = lookupA l k' := by
  induction l with
  | nil => simp [putA, lookupA, h]
  | cons p rest ih =>
    obtain ⟨k'', v''⟩ := p
    by_cases h2 : k'' = k
    · subst h2
      simp [putA, lookupA, h]
    · simp [putA, h2, lookupA, ih]

theorem lookupA_eq_none_iff {α} (l : List (String × α)) (k : String) :
    lookupA l k = none ↔ k ∉ l.map Prod.fst := by
  induction l with
  | nil => simp [lookupA]
  | cons p rest ih =>
    obtain ⟨k', v'⟩ := p
    by_cases h : k' = k
    · simp [lookupA, h]
    · rw [lookupA, if_neg h, ih]
      constructor
      · intro hk
        simp only [List.map_cons, List.mem_cons, not_or]
        exact ⟨fun he => h he.symm, hk⟩
      · intro hk
        simp only [List.map_cons, List.mem_cons, not_or] at hk
        exact hk.2

theorem lookupA_mem_keys {α} (l : List (String × α)) (k : String) (v : α)
    (h : lookupA l k = some v) : k ∈ l.map Prod.fst := by
  by_contra hk
  rw [← lookupA_eq_none_iff] at hk
  rw [h] at hk
  exact Option.noConfusion hk

/-- Folding `putA` over entries whose keys avoid `n` does not change the
lookup at `n`. -/
theorem lookupA_putMany_not_mem {α β} (enc : String × β → α) :
    ∀ (l : List (String × β)) (b : List (String × α)) (n : String),
      n ∉ l.map Prod.fst →
      lookupA (l.foldl (fun b p => putA b p.1 (enc p)) b) n = lookupA b n := by
  intro l
  induction l with
  | nil => intro b n _; rfl
  | cons p rest ih =>
    intro b n hn
    simp only [List.map_cons, List.mem_cons, not_or] at hn
    simp only [List.foldl_cons]
    rw [ih _ n hn.2]
    exact lookupA_putA_ne _ _ _ _ fun he => hn.1 he.symm

/-- Folding `putA` over entries with pairwise distinct keys stores exactly
the listed value at each listed key. -/
theorem lookupA_putMany_mem {α β} (enc : String × β → α) :
    ∀ (l : List (String × β)) (b : List (String × α)) (n : String) (s : β),
      (l.map Prod.fst).Nodup → lookupA l n = some s →
      lookupA (l.foldl (fun b p => putA b p.1 (enc p)) b) n = some (enc (n, s)) := by
  intro l
  induction l with
  | nil => intro b n s _ h; simp [lookupA] at h
  | cons p rest ih =>
    intro b n s hnd hl
    obtain ⟨k, v⟩ := p
    simp only [List.map_cons, List.nodup_cons] at hnd
    simp only [List.foldl_cons]
    by_cases h : k = n
    · subst h
      rw [lookupA, if_pos rfl] at hl
      have hv : v = s := by injection hl
      rw [lookupA_putMany_not_mem enc rest _ k hnd.1, lookupA_putA_self b k (enc (k, v)), hv]
    · rw [lookupA] at hl
      rw [if_neg h] at hl
      exact ih _ n s hnd.2 hl

theorem putA_of_not_mem {α} :
    ∀ (b : List (String × α)) (k : String) (v : α), k ∉ b.map Prod.fst →
      putA b k v = b ++ [(k, v)] := by
  intro b
  induction b with
  | nil => intro k v _; rfl
  | cons p rest ih =>
    intro k v hk
    obtain ⟨k', v'⟩ := p
    simp only [List.map_cons, List.mem_cons, not_or] at hk
    rw [putA, if_neg fun he => hk.1 he.symm, ih k v hk.2]
    rfl

/-- Folding `putA` into a bucket disjoint from the new keys appends the
encoded entries in order. -/
theorem putMany_of_disjoint {α β} (enc : String × β → α) :
    ∀ (l : List (String × β)) (b : List (String × α)),
      (l.map Prod.fst).Nodup → (∀ k ∈ l.map Prod.fst, k ∉ b.map Prod.fst) →
      l.foldl (fun b p => putA b p.1 (enc p)) b = b ++ l.map fun p => (p.1, enc p) := by
  intro l
  induction l with
  | nil => intro b _ _; simp
  | cons p rest ih =>
    intro b hnd hdisj
    obtain ⟨k, v⟩ := p
    simp only [List.map_cons, List.nodup_cons] at hnd
    simp only [List.foldl_cons]
    rw [putA_of_not_mem b k _ (hdisj k (by simp))]
    rw [ih (b ++ [(k, enc (k, v))]) hnd.2 ?_]
    · simp
    · intro k' hk'
      simp only [List.map_append, List.mem_append, not_or]
      refine ⟨hdisj k' (by simp [hk']), ?_⟩
      simp only [List.map_cons, List.map_nil, List.mem_singleton]
      intro he
      rw [he] at hk'
      exact hnd.1 hk'

theorem decodeManager_encodeManager (m : Option storeSpreadsheet) :
    decodeManager (encodeManager m) = some m := by
  cases m <;> rfl

theorem decodeTeams_encoded :
    ∀ l : List (String × storeSpreadsheet),
      decodeTeams (l.map fun p => (p.1, StoredVal.sheet p.2.ID p.2.URL)) = .ok l := by
  intro l
  induction l with
  | nil => rfl
  | cons p rest ih => simp [decodeTeams, decodeSheetEntry, ih]

/-! ## Store theorems -/

/-- The computed result of `saveSpreadsheets`: it never fails, puts the
marshalled manager, and merges the team entries when the map is
non-empty. -/
theorem saveSpreadsheets_eq (req : storeGameSpreadsheets) (db : DB) :
    saveSpreadsheets req db =
      (⟨some (putA (db.config.getD []) bucketGameConfiguration_managerSpreadsheet
                (encodeManager req.manager)),
        some (if req.teams.isEmpty then db.teams.getD []
              else req.teams.foldl (fun b p => putA b p.1 (.sheet p.2.ID p.2.URL))
                     (db.teams.getD [])),
        some (db.results.getD [])⟩, none) := by
  by_cases h : req.teams.isEmpty <;>
    simp [saveSpreadsheets, update, saveSpreadsheetsTx, createBuckets, getBucket, h]

/-- C3: re-saving the registry writes the manager unconditionally under the
fixed key (an absent manager as the null marker), writes each provided
team's entry under that team's name, leaves entries for names absent from
the saved map unchanged, leaves the teams bucket's contents untouched when
the saved team map is empty, and does not touch the results bucket or any
other configuration key. -/
theorem saveSpreadsheets_spec (req : storeGameSpreadsheets) (db : DB)
    (hnd : (req.teams.map Prod.fst).Nodup) :
    (saveSpreadsheets req db).2 = none ∧
    encodeManager none = StoredVal.jnull ∧
    lookupOB (saveSpreadsheets req db).1.config bucketGameConfiguration_managerSpreadsheet =
      some (encodeManager req.manager) ∧
    (∀ n s, lookupA req.teams n = some s →
      lookupOB (saveSpreadsheets req db).1.teams n = some (.sheet s.ID s.URL)) ∧
    (∀ n, lookupA req.teams n = none →
      lookupOB (saveSpreadsheets req db).1.teams n = lookupOB db.teams n) ∧
    (req.teams = [] → ∀ b, db.teams = some b → (saveSpreadsheets req db).1.teams = some b) ∧
    (∀ k, k ≠ bucketGameConfiguration_managerSpreadsheet →
      lookupOB (saveSpreadsheets req db).1.config k = lookupOB db.config k) ∧
    (∀ k, lookupOB (saveSpreadsheets req db).1.results k = lookupOB db.results k) := by
  rw [saveSpreadsheets_eq]
  refine ⟨rfl, rfl, ?_, ?_, ?_, ?_, ?_, ?_⟩
  · exact lookupA_putA_self _ _ _
  · intro n s hs
    have hne : ¬req.teams.isEmpty := by
      cases ht : req.teams with
      | nil => rw [ht] at hs; exact absurd hs (by simp [lookupA])
      | cons p l => simp [ht]
    simp only [lookupOB, hne, if_false, Bool.false_eq_true]
    exact lookupA_putMany_mem (fun p => StoredVal.sheet p.2.ID p.2.URL) req.teams _ n s hnd hs
  · intro n hn
    have hmem : n ∉ req.teams.map Prod.fst := (lookupA_eq_none_iff _ _).mp hn
    by_cases he : req.teams.isEmpty <;> simp only [lookupOB, he, if_true, if_false] <;>
      cases hdb : db.teams <;> simp [lookupOB, lookupA]
    · rw [lookupA_putMany_not_mem (fun p => StoredVal.sheet p.2.ID p.2.URL) req.teams [] n hmem]
      rfl
    · rw [lookupA_putMany_not_mem (fun p => StoredVal.sheet p.2.ID p.2.URL) req.teams _ n hmem]
  · intro ht b hb
    simp [ht, hb]
  · intro k hk
    simp only [lookupOB]
    rw [lookupA_putA_ne _ _ _ _ fun he => hk he.symm]
    cases hdb : db.config <;> simp [lookupOB, lookupA]
  · intro k
    cases hdb : db.results <;> simp [lookupOB, lookupA]

/-- C3 witness: saving a one-team registry into a store already holding a
different team's entry overwrites only the provided names. -/
theorem saveSpreadsheets_spec_witness :
    lookupOB (saveSpreadsheets ⟨none, [("new", ⟨"c", "d"⟩)]⟩
        ⟨none, some [("old", .sheet "a" "b")], none⟩).1.teams "old" =
      some (.sheet "a" "b") ∧
    lookupOB (saveSpreadsheets ⟨none, [("new", ⟨"c", "d"⟩)]⟩
        ⟨none, some [("old", .sheet "a" "b")], none⟩).1.teams "new" =
      some (.sheet "c" "d") ∧
    lookupOB (saveSpreadsheets ⟨none, [("new", ⟨"c", "d"⟩)]⟩
        ⟨none, some [("old", .sheet "a" "b")], none⟩).1.config
        bucketGameConfiguration_managerSpreadsheet = some .jnull := by
  have h := saveSpreadsheets_spec ⟨none, [("new", ⟨"c", "d"⟩)]⟩
    ⟨none, some [("old", .sheet "a" "b")], none⟩ (by simp)
  refine ⟨?_, ?_, ?_⟩
  · rw [h.2.2.2.2.1 "old" (by rfl)]
    rfl
  · exact h.2.2.2.1 "new" ⟨"c", "d"⟩ (by rfl)
  · exact h.2.2.1

/-- C5: `getRoundResults n` returns the zero-value record when the results
bucket does not exist; fails with round-not-found carrying `n` when the
bucket exists but holds nothing under the decimal key of `n`; fails with a
decode error when the stored bytes do not unmarshal; returns the decoded
record otherwise; and the round-not-found condition is distinct from the
decode-failure condition. -/
theorem getRoundResults_spec (db : DB) (n : Int) :
    (db.results = none → getRoundResults db n = .ok ⟨0, []⟩) ∧
    (∀ b, db.results = some b → lookupA b (toString n) = none →
      getRoundResults db n = .error (.roundNotFound n)) ∧
    (∀ b v, db.results = some b → lookupA b (toString n) = some v → decodeRound v = none →
      getRoundResults db n = .error .decodeError) ∧
    (∀ b v r, db.results = some b → lookupA b (toString n) = some v → decodeRound v = some r →
      getRoundResults db n = .ok r) ∧
    Err.roundNotFound n ≠ Err.decodeError := by
  refine ⟨?_, ?_, ?_, ?_, by simp⟩
  · intro h
    simp [getRoundResults, read, h]
  · intro b hb hl
    simp [getRoundResults, read, hb, hl]
  · intro b v hb hl hd
    simp [getRoundResults, read, hb, hl, hd]
  · intro b v r hb hl hd
    simp [getRoundResults, read, hb, hl, hd]

/-- C5 witness: a fresh store yields the default record; a store whose
results bucket exists but is empty yields round-not-found. -/
theorem getRoundResults_spec_witness :
    getRoundResults emptyDB 7 = .ok ⟨0, []⟩ ∧
    getRoundResults ⟨none, none, some []⟩ 7 = .error (.roundNotFound 7) :=
  ⟨(getRoundResults_spec emptyDB 7).1 rfl,
   (getRoundResults_spec ⟨none, none, some []⟩ 7).2.1 [] rfl rfl⟩

/-- C8: saving any registry with a non-null manager and a team map with
distinct names into a fresh store and reading it back returns the manager
and exactly the saved team map. -/
theorem saveGet_roundtrip (req : storeGameSpreadsheets) (hm : req.manager.isSome = true)
    (hnd : (req.teams.map Prod.fst).Nodup) :
    getSpreadsheetsManager (saveSpreadsheets req emptyDB).1 = .ok req.manager ∧
    ∀ n, getSpreadsheetsTeam (saveSpreadsheets req emptyDB).1 n = .ok (lookupA req.teams n) := by
  rw [saveSpreadsheets_eq]
  have hfold : req.teams.foldl (fun b p => putA b p.1 (.sheet p.2.ID p.2.URL))
      ((emptyDB.teams).getD []) = req.teams.map fun p => (p.1, StoredVal.sheet p.2.ID p.2.URL) := by
    have := putMany_of_disjoint (fun p => StoredVal.sheet p.2.ID p.2.URL) req.teams [] hnd
      (by intro k _; simp)
    simpa [emptyDB] using this
  have hget : getSpreadsheets
      (⟨some (putA ((emptyDB.config).getD []) bucketGameConfiguration_managerSpreadsheet
          (encodeManager req.manager)),
        some (if req.teams.isEmpty then (emptyDB.teams).getD []
              else req.teams.foldl (fun b p => putA b p.1 (.sheet p.2.ID p.2.URL))
                     ((emptyDB.teams).getD [])),
        some ((emptyDB.results).getD [])⟩ : DB) = .ok ⟨req.manager, req.teams⟩ := by
    by_cases he : req.teams.isEmpty
    · have hte : req.teams = [] := by
        cases ht : req.teams with
        | nil => rfl
        | cons p l => rw [ht] at he; simp at he
      simp [getSpreadsheets, read, getBucket, emptyDB, putA, lookupA,
        decodeManager_encodeManager, he, hte, decodeTeams]
    · rw [hfold]
      simp only [he, if_false, Bool.false_eq_true]
      simp [getSpreadsheets, read, getBucket, emptyDB, putA, lookupA,
        decodeManager_encodeManager, decodeTeams_encoded]
  refine ⟨?_, fun n => ?_⟩
  · simp only [getSpreadsheetsManager]
    rw [hget]
  · simp only [getSpreadsheetsTeam]
    rw [hget]

/-- C8 witness: a concrete one-team registry round-trips through a fresh
store. -/
theorem saveGet_roundtrip_witness :
    getSpreadsheetsManager
        (saveSpreadsheets ⟨some ⟨"id", "url"⟩, [("T1", ⟨"i1", "u1"⟩)]⟩ emptyDB).1 =
      .ok (some ⟨"id", "url"⟩) ∧
    getSpreadsheetsTeam
        (saveSpreadsheets ⟨some ⟨"id", "url"⟩, [("T1", ⟨"i1", "u1"⟩)]⟩ emptyDB).1 "T1" =
      .ok (some ⟨"i1", "u1"⟩) := by
  have h := saveGet_roundtrip ⟨some ⟨"id", "url"⟩, [("T1", ⟨"i1", "u1"⟩)]⟩ rfl (by simp)
  refine ⟨h.1, ?_⟩
  rw [h.2 "T1"]
  rfl

/-- C9: `update` runs its transaction body against a state in which all
three well-known buckets exist (existing buckets preserved, missing ones
created empty), commits the body's state on success, and on error returns
that error with the store unchanged — no partial writes remain visible. -/
theorem update_spec (db : DB) (fn : DB → Except Err DB) :
    (createBuckets db).config.isSome = true ∧
    (createBuckets db).teams.isSome = true ∧
    (createBuckets db).results.isSome = true ∧
    (∀ b, db.config = some b → (createBuckets db).config = some b) ∧
    (∀ b, db.teams = some b → (createBuckets db).teams = some b) ∧
    (∀ b, db.results = some b → (createBuckets db).results = some b) ∧
    (∀ e, fn (createBuckets db) = .error e → update db fn = (db, some e)) ∧
    (∀ db2, fn (createBuckets db) = .ok db2 → update db fn = (db2, none)) := by
  refine ⟨rfl, rfl, rfl, ?_, ?_, ?_, ?_, ?_⟩
  · intro b hb
    simp [createBuckets, hb]
  · intro b hb
    simp [createBuckets, hb]
  · intro b hb
    simp [createBuckets, hb]
  · intro e he
    simp [update, he]
  · intro db2 h2
    simp [update, h2]

/-- C9 witness: a failing transaction body leaves a store with existing
content untouched and surfaces the error. -/
theorem update_spec_witness :
    update ⟨some [("k", .jnull)], none, none⟩ (fun _ => .error .decodeError) =
      (⟨some [("k", .jnull)], none, none⟩, some .decodeError) :=
  (update_spec ⟨some [("k", .jnull)], none, none⟩ (fun _ => .error .decodeError)).2.2.2.2.2.2.1
    .decodeError rfl

/-! ## Aggregation lemmas (`CmdGetTotal`) -/

/-- The contribution of one stored record to team `t`: 1 when it holds an
`OK` response for `t`, else 0. -/
def hitOK (l : List (String × roundResponse)) (t : String) : Nat :=
  match lookupA l t with
  | some resp => if resp.Status = ResponseStatus.OK then 1 else 0
  | none => 0

theorem hitOK_head (team : String) (res : roundResponse) (rest : List (String × roundResponse)) :
    hitOK ((team, res) :: rest) team = if res.Status = ResponseStatus.OK then 1 else 0 := by
  simp [hitOK, lookupA]

theorem hitOK_tail (team t : String) (res : roundResponse)
    (rest : List (String × roundResponse)) (h : team ≠ t) :
    hitOK ((team, res) :: rest) t = hitOK rest t := by
  simp [hitOK, lookupA, h]

theorem hitOK_of_none (l : List (String × roundResponse)) (t : String)
    (h : lookupA l t = none) : hitOK l t = 0 := by
  simp [hitOK, h]

theorem contributesOK_eq (db : DB) (i : Int) (r : roundResults) (t : String)
    (h : getRoundResults db i = .ok r) :
    (if contributesOK db t i then 1 else 0) = hitOK r.Results t := by
  simp only [contributesOK, hitOK, h]
  cases hl : lookupA r.Results t with
  | none => rfl
  | some resp => by_cases hs : resp.Status = ResponseStatus.OK <;> simp [hs]

theorem contributesOK_of_error (db : DB) (i : Int) (t : String) (e : Err)
    (h : getRoundResults db i = .error e) : contributesOK db t i = false := by
  simp [contributesOK, h]

/-- `processRound` on a record whose teams are all in the totals map
succeeds and adds the record's `OK` hits pointwise. -/
theorem processRound_ok (l : List (String × roundResponse)) :
    ∀ total : String → Option Nat,
      (l.map Prod.fst).Nodup → (∀ p ∈ l, (total p.1).isSome = true) →
      ∃ f, processRound total l = .ok f ∧
        (∀ t c, total t = some c → f t = some (c + hitOK l t)) ∧
        (∀ t, total t = none → f t = none) := by
  induction l with
  | nil =>
    intro total _ _
    refine ⟨total, rfl, ?_, fun t h => h⟩
    intro t c hc
    rw [hitOK_of_none [] t rfl, hc]
    rfl
  | cons p rest ih =>
    obtain ⟨team, res⟩ := p
    intro total hnd hdom
    obtain ⟨c0, hc0⟩ : ∃ c0, total team = some c0 :=
      Option.isSome_iff_exists.mp (hdom (team, res) (by simp))
    simp only [List.map_cons, List.nodup_cons] at hnd
    set total' := if res.Status = ResponseStatus.OK
      then fun t => if t = team then some (c0 + 1) else total t else total with htd
    have hdom' : ∀ p ∈ rest, (total' p.1).isSome = true := by
      intro p hp
      rw [htd]
      split
      · by_cases he : p.1 = team <;> simp [he, hc0, hdom p (List.mem_cons_of_mem _ hp)]
      · exact hdom p (List.mem_cons_of_mem _ hp)
    obtain ⟨f, hf, hfc, hfn⟩ := ih total' hnd.2 hdom'
    have hstep : processRound total ((team, res) :: rest) = processRound total' rest := by
      simp only [processRound, hc0]
    refine ⟨f, hstep.trans hf, ?_, ?_⟩
    · intro t c hc
      by_cases ht : t = team
      · subst ht
        have hcc : c0 = c := Option.some.inj (hc0.symm.trans hc)
        have hrest : lookupA rest t = none := (lookupA_eq_none_iff rest t).mpr hnd.1
        rw [hitOK_head]
        by_cases hok : res.Status = ResponseStatus.OK
        · have htv : total' t = some (c0 + 1) := by rw [htd]; simp [hok]
          have hft := hfc t (c0 + 1) htv
          rw [hitOK_of_none rest t hrest] at hft
          rw [hft, if_pos hok, hcc]
        · have htv : total' t = some c0 := by rw [htd]; simp [hok]; exact hc0
          have hft := hfc t c0 htv
          rw [hitOK_of_none rest t hrest] at hft
          rw [hft, if_neg hok, hcc]
      · rw [hitOK_tail team t res rest fun he => ht he.symm]
        have htv : total' t = some c := by
          rw [htd]
          split
          · simp only [ht, if_false]
            exact hc
          · exact hc
        exact hfc t c htv
    · intro t hn
      have ht : t ≠ team := fun he => by rw [he, hc0] at hn; exact Option.noConfusion hn
      have htv : total' t = none := by
        rw [htd]
        split
        · simp only [ht, if_false]
          exact hn
        · exact hn
      exact hfn t htv

/-- `processRound` aborts with an unknown-team error at the first stored
response whose team is outside the totals map. -/
theorem processRound_err (p1 : List (String × roundResponse)) :
    ∀ (total : String → Option Nat) (u : String) (resp : roundResponse)
      (p2 : List (String × roundResponse)),
      (∀ p ∈ p1, (total p.1).isSome = true) → total u = none →
      processRound total (p1 ++ (u, resp) :: p2) = .error (.unknownTeam u) := by
  induction p1 with
  | nil =>
    intro total u resp p2 _ hu
    simp [processRound, hu]
  | cons p rest ih =>
    obtain ⟨team, res⟩ := p
    intro total u resp p2 hdom hu
    obtain ⟨c0, hc0⟩ : ∃ c0, total team = some c0 :=
      Option.isSome_iff_exists.mp (hdom (team, res) (by simp))
    set total' := if res.Status = ResponseStatus.OK
      then fun t => if t = team then some (c0 + 1) else total t else total with htd
    have hdom' : ∀ p ∈ rest, (total' p.1).isSome = true := by
      intro p hp
      rw [htd]
      split
      · by_cases he : p.1 = team <;> simp [he, hc0, hdom p (List.mem_cons_of_mem _ hp)]
      · exact hdom p (List.mem_cons_of_mem _ hp)
    have hu' : total' u = none := by
      have hne : u ≠ team := fun he => by rw [he, hc0] at hu; exact Option.noConfusion hu
      rw [htd]
      split
      · simp only [hne, if_false]
        exact hu
      · exact hu
    have hstep : processRound total (((team, res) :: rest) ++ (u, resp) :: p2) =
        processRound total' (rest ++ (u, resp) :: p2) := by
      simp only [List.cons_append, processRound, hc0]
      rfl
    rw [hstep]
    exact ih total' u resp p2 hdom' hu'

/-- `processRound` on a well-formed record keeps the totals map's domain
equal to the configured team list. -/
theorem processRound_domain (cfg : Config) (r : roundResults) (total : String → Option Nat)
    (hnd : (r.Results.map Prod.fst).Nodup) (hteams : ∀ p ∈ r.Results, p.1 ∈ cfg.Teams)
    (hdom : ∀ t, t ∈ cfg.Teams ↔ (total t).isSome = true) :
    ∃ f1, processRound total r.Results = .ok f1 ∧
      (∀ t c, total t = some c → f1 t = some (c + hitOK r.Results t)) ∧
      (∀ t, t ∈ cfg.Teams ↔ (f1 t).isSome = true) := by
  obtain ⟨f1, hf1, hf1c, hf1n⟩ := processRound_ok r.Results total hnd
    (fun p hp => (hdom p.1).mp (hteams p hp))
  refine ⟨f1, hf1, hf1c, ?_⟩
  intro t
  constructor
  · intro ht
    obtain ⟨c, hc⟩ := Option.isSome_iff_exists.mp ((hdom t).mp ht)
    rw [hf1c t c hc]
    rfl
  · intro ht
    by_contra hmem
    have hnone : total t = none := by
      cases hv : total t with
      | none => rfl
      | some c => exact absurd ((hdom t).mpr (by simp [hv])) hmem
    rw [hf1n t hnone] at ht
    simp at ht

/-- The round loop over good rounds: adds each round's `OK` hit count. -/
theorem totalLoop_ok (cfg : Config) (db : DB) :
    ∀ (rounds : List Int) (total : String → Option Nat),
      (∀ i ∈ rounds, goodRound cfg db i) →
      (∀ t, t ∈ cfg.Teams ↔ (total t).isSome = true) →
      ∃ f, totalLoop db rounds total = .ok f ∧
        (∀ t c, total t = some c →
          f t = some (c + rounds.countP (contributesOK db t))) := by
  intro rounds
  induction rounds with
  | nil =>
    intro total _ _
    exact ⟨total, rfl, fun t c hc => by simp [hc]⟩
  | cons i rest ih =>
    intro total hgood hdom
    rcases hgood i (by simp) with herr | ⟨r, hok, hnd, hteams⟩
    · have hstep : totalLoop db (i :: rest) total = totalLoop db rest total := by
        simp [totalLoop, herr]
      obtain ⟨f, hf, hfc⟩ := ih total (fun j hj => hgood j (by simp [hj])) hdom
      refine ⟨f, hstep.trans hf, ?_⟩
      intro t c hc
      rw [hfc t c hc, List.countP_cons, contributesOK_of_error db i t _ herr]
      simp
    · obtain ⟨f1, hf1, hf1c, hdom1⟩ := processRound_domain cfg r total hnd hteams hdom
      obtain ⟨f, hf, hfc⟩ := ih f1 (fun j hj => hgood j (by simp [hj])) hdom1
      have hstep : totalLoop db (i :: rest) total = totalLoop db rest f1 := by
        simp [totalLoop, hok, hf1]
      refine ⟨f, hstep.trans hf, ?_⟩
      intro t c hc
      rw [hfc t (c + hitOK r.Results t) (hf1c t c hc), List.countP_cons,
        ← contributesOK_eq db i r t hok]
      congr 1
      ring

/-- The round loop aborts on the first store error that is not the
round-not-found condition for the round being read. -/
theorem totalLoop_abort_err (cfg : Config) (db : DB) :
    ∀ (l1 : List Int) (j : Int) (l2 : List Int) (total : String → Option Nat) (e : Err),
      (∀ i ∈ l1, goodRound cfg db i) →
      (∀ t, t ∈ cfg.Teams ↔ (total t).isSome = true) →
      getRoundResults db j = .error e → e ≠ .roundNotFound j →
      totalLoop db (l1 ++ j :: l2) total = .error e := by
  intro l1
  induction l1 with
  | nil =>
    intro j l2 total e _ _ he hne
    simp [totalLoop, he, hne]
  | cons i rest ih =>
    intro j l2 total e hgood hdom he hne
    rcases hgood i (by simp) with herr | ⟨r, hok, hnd, hteams⟩
    · have hstep : totalLoop db ((i :: rest) ++ j :: l2) total =
          totalLoop db (rest ++ j :: l2) total := by
        simp [totalLoop, herr]
      rw [hstep]
      exact ih j l2 total e (fun x hx => hgood x (by simp [hx])) hdom he hne
    · obtain ⟨f1, hf1, _, hdom1⟩ := processRound_domain cfg r total hnd hteams hdom
      have hstep : totalLoop db ((i :: rest) ++ j :: l2) total =
          totalLoop db (rest ++ j :: l2) f1 := by
        simp [totalLoop, hok, hf1]
      rw [hstep]
      exact ih j l2 f1 e (fun x hx => hgood x (by simp [hx])) hdom1 he hne

/-- The round loop aborts with an unknown-team error when a fetched record
names a team outside the configured list. -/
theorem totalLoop_abort_unknown (cfg : Config) (db : DB) :
    ∀ (l1 : List Int) (j : Int) (l2 : List Int) (total : String → Option Nat)
      (r : roundResults) (p1 : List (String × roundResponse)) (u : String)
      (resp : roundResponse) (p2 : List (String × roundResponse)),
      (∀ i ∈ l1, goodRound cfg db i) →
      (∀ t, t ∈ cfg.Teams ↔ (total t).isSome = true) →
      getRoundResults db j = .ok r →
      r.Results = p1 ++ (u, resp) :: p2 →
      (∀ p ∈ p1, p.1 ∈ cfg.Teams) → u ∉ cfg.Teams →
      totalLoop db (l1 ++ j :: l2) total = .error (.unknownTeam u) := by
  intro l1
  induction l1 with
  | nil =>
    intro j l2 total r p1 u resp p2 _ hdom hok hsplit hp1 hu
    have hune : total u = none := by
      cases hv : total u with
      | none => rfl
      | some c => exact absurd ((hdom u).mpr (by simp [hv])) hu
    have hpe : processRound total r.Results = .error (.unknownTeam u) := by
      rw [hsplit]
      exact processRound_err p1 total u resp p2
        (fun p hp => (hdom p.1).mp (hp1 p hp)) hune
    simp [totalLoop, hok, hpe]
  | cons i rest ih =>
    intro j l2 total r p1 u resp p2 hgood hdom hok hsplit hp1 hu
    rcases hgood i (by simp) with herr | ⟨r', hok', hnd', hteams'⟩
    · have hstep : totalLoop db ((i :: rest) ++ j :: l2) total =
          totalLoop db (rest ++ j :: l2) total := by
        simp [totalLoop, herr]
      rw [hstep]
      exact ih j l2 total r p1 u resp p2 (fun x hx => hgood x (by simp [hx])) hdom hok
        hsplit hp1 hu
    · obtain ⟨f1, hf1, _, hdom1⟩ := processRound_domain cfg r' total hnd' hteams' hdom
      have hstep : totalLoop db ((i :: rest) ++ j :: l2) total =
          totalLoop db (rest ++ j :: l2) f1 := by
        simp [totalLoop, hok', hf1]
      rw [hstep]
      exact ih j l2 f1 r p1 u resp p2 (fun x hx => hgood x (by simp [hx])) hdom1 hok
        hsplit hp1 hu

/-- C7: `CmdGetTotal` iterates rounds from (1 when the game has a warm-up
question, else 0) through `NumberOfQuestions - 1` and counts, per
configured team, the rounds whose stored status is `OK`; a round-not-found
answer contributes zero instead of aborting; any other store error aborts
with that error; and a stored response naming a team outside the
configured list aborts with an unknown-team error. -/
theorem CmdGetTotal_spec (cfg : Config) (db : DB) :
    ((∀ i ∈ roundsOf cfg, goodRound cfg db i) →
      ∀ t, t ∈ cfg.Teams →
        cmdGetTotalAt cfg db t = .ok (some ((roundsOf cfg).countP (contributesOK db t)))) ∧
    (∀ (l1 : List Int) (j : Int) (l2 : List Int) (e : Err) (t : String),
      roundsOf cfg = l1 ++ j :: l2 →
      (∀ i ∈ l1, goodRound cfg db i) →
      getRoundResults db j = .error e → e ≠ .roundNotFound j →
      cmdGetTotalAt cfg db t = .error e) ∧
    (∀ (l1 : List Int) (j : Int) (l2 : List Int) (r : roundResults)
      (p1 : List (String × roundResponse)) (u : String) (resp : roundResponse)
      (p2 : List (String × roundResponse)) (t : String),
      roundsOf cfg = l1 ++ j :: l2 →
      (∀ i ∈ l1, goodRound cfg db i) →
      getRoundResults db j = .ok r →
      r.Results = p1 ++ (u, resp) :: p2 →
      (∀ p ∈ p1, p.1 ∈ cfg.Teams) → u ∉ cfg.Teams →
      cmdGetTotalAt cfg db t = .error (.unknownTeam u)) := by
  have hdom0 : ∀ t, t ∈ cfg.Teams ↔ ((initTotal cfg) t).isSome = true := by
    intro t
    by_cases ht : t ∈ cfg.Teams <;> simp [initTotal, ht]
  refine ⟨?_, ?_, ?_⟩
  · intro hgood t ht
    obtain ⟨f, hf, hfc⟩ := totalLoop_ok cfg db (roundsOf cfg) (initTotal cfg) hgood hdom0
    have h0 : initTotal cfg t = some 0 := by simp [initTotal, ht]
    simp only [cmdGetTotalAt, CmdGetTotal, hf]
    rw [hfc t 0 h0]
    simp
  · intro l1 j l2 e t hsplit hgood he hne
    have habort := totalLoop_abort_err cfg db l1 j l2 (initTotal cfg) e hgood hdom0 he hne
    simp only [cmdGetTotalAt, CmdGetTotal, hsplit, habort]
  · intro l1 j l2 r p1 u resp p2 t hsplit hgood hok hrsplit hp1 hu
    have habort := totalLoop_abort_unknown cfg db l1 j l2 (initTotal cfg) r p1 u resp p2
      hgood hdom0 hok hrsplit hp1 hu
    simp only [cmdGetTotalAt, CmdGetTotal, hsplit, habort]

/-- C7 witness: teams A and B, no warm-up, two rounds; round 0 graded
A:OK, B:KO; round 1 never fetched.  The totals are A:1, B:0. -/
theorem CmdGetTotal_spec_witness :
    cmdGetTotalAt ⟨"g", 2, false, ["A", "B"]⟩
        (saveRoundResults ⟨0, [("A", ⟨"x", .OK⟩), ("B", ⟨"y", .KO⟩)]⟩ emptyDB).1 "A" =
      .ok (some 1) ∧
    cmdGetTotalAt ⟨"g", 2, false, ["A", "B"]⟩
        (saveRoundResults ⟨0, [("A", ⟨"x", .OK⟩), ("B", ⟨"y", .KO⟩)]⟩ emptyDB).1 "B" =
      .ok (some 0) := by
  have hgood : ∀ i ∈ roundsOf ⟨"g", 2, false, ["A", "B"]⟩,
      goodRound ⟨"g", 2, false, ["A", "B"]⟩
        (saveRoundResults ⟨0, [("A", ⟨"x", .OK⟩), ("B", ⟨"y", .KO⟩)]⟩ emptyDB).1 i := by
    have hr : roundsOf ⟨"g", 2, false, ["A", "B"]⟩ = [0, 1] := by decide
    rw [hr]
    intro i hi
    simp only [List.mem_cons, List.not_mem_nil, or_false] at hi
    rcases hi with hi | hi
    · subst hi
      exact Or.inr ⟨⟨0, [("A", ⟨"x", .OK⟩), ("B", ⟨"y", .KO⟩)]⟩, rfl, by decide, by decide⟩
    · subst hi
      exact Or.inl rfl
  have h := (CmdGetTotal_spec ⟨"g", 2, false, ["A", "B"]⟩
    (saveRoundResults ⟨0, [("A", ⟨"x", .OK⟩), ("B", ⟨"y", .KO⟩)]⟩ emptyDB).1).1 hgood
  constructor
  · rw [h "A" (by decide)]
    rfl
  · rw [h "B" (by decide)]
    rfl

end Chgk
